import Mathlib

/-!
Verification development for the GoAngent log-correlation agent.

The Go sources modelled here are:
  * `log_preprocessor.go` (src/unnamed/part_000, lines 1-271): the batch
    preprocessing pipeline `ParseLogs` -> `MinePatterns` -> `CreateBundle`
    -> `Process`.
  * the agent server file (src/unnamed/part_000, lines 818-1283): the
    free-text normalizer `parseLine`, the UTF-16 file reader
    `readFileAutoUTF`, and the rotation-safe tailer `tailFile`.
  * `main.go`: the severity tagger `formatLogLine`.

Modelling conventions:
  * Go strings are Lean `String`s; byte-level operations work on `.data`
    (`List Char`).  All inputs considered are ASCII, where Go's byte-wise
    string order, `strings.ToLower`, and `strings.TrimSpace` agree with the
    character-wise model used here.
  * Go `float64` metric fields only ever hold the exact constants 0.0, 3.0
    and 5.0, assigned and never computed with; they are modelled as `ℚ`.
  * Go maps (`patternMap`, `affectedServicesMap`) are modelled as
    insertion-ordered association lists / first-occurrence dedup.  Go map
    iteration order is unspecified, so every theorem below that touches
    these collections states an order-insensitive property (permutation,
    count, membership).
  * `sort.Slice` is modelled twice: `sortLogs` realizes its documented
    postcondition (a permutation of the input, sorted by the comparator)
    with a fixed tie-break, and `sortSliceGo` is a port of the Go 1.19+
    runtime algorithm (pdqsort) used to exhibit the tie-order actually
    produced.  `sort.Slice` is documented as NOT guaranteed to be stable.
  * Wall-clock reads (`time.Now()`) are passed in as an explicit `now`
    parameter.
-/

/-! ## Byte-wise string order (Go `<` on strings, ASCII inputs) -/

def ltChars : List Char → List Char → Bool
  | [], [] => false
  | [], _ :: _ => true
  | _ :: _, [] => false
  | a :: as, b :: bs =>
    if a.toNat < b.toNat then true
    else if b.toNat < a.toNat then false
    else ltChars as bs

def strLtB (a b : String) : Bool := ltChars a.data b.data

def strLeB (a b : String) : Bool := !(strLtB b a)

def StrLe (a b : String) : Prop := strLeB a b = true

instance : DecidablePred fun p : String × String => StrLe p.1 p.2 := by
  intro p; unfold StrLe; infer_instance

instance (a b : String) : Decidable (StrLe a b) := by
  unfold StrLe; infer_instance

/-! ## Substring search (Go `strings.Contains`) and trimming -/

def containsSub (s sub : List Char) : Bool :=
  match s with
  | [] => sub.isEmpty
  | c :: rest => sub.isPrefixOf (c :: rest) || containsSub rest sub

/-- Whitespace set of Go `strings.TrimSpace`, restricted to ASCII. -/
def isSpaceCh (c : Char) : Bool :=
  c = ' ' || c = '\t' || c = '\n' || c = '\r' || c = '\x0b' || c = '\x0c'

def trimSpace (cs : List Char) : List Char :=
  ((cs.dropWhile isSpaceCh).reverse.dropWhile isSpaceCh).reverse

/-! ## Data model (internal types of log_preprocessor.go, lines 14-54) -/

structure RawLogGo where
  Timestamp : String
  Level : String
  Service : String
  Pod : Option String
  Message : String
  ErrorClass : Option String
  deriving Repr, DecidableEq, Inhabited

structure LogPatternGo where
  Pattern : String
  Count : Nat
  FirstOccurrence : String
  LastOccurrence : String
  ErrorClass : Option String
  deriving Repr, DecidableEq, Inhabited

structure SequenceItemGo where
  Timestamp : String
  Typ : String
  Message : String
  SequenceIndex : Nat
  deriving Repr, DecidableEq, Inhabited

structure MetricsGo where
  ErrorRateZ : ℚ
  LatencyZ : ℚ
  deriving Repr, DecidableEq, Inhabited

structure CorrelationBundleGo where
  WindowStart : String
  WindowEnd : String
  RootService : Option String
  AffectedServices : List String
  LogPatterns : List LogPatternGo
  Events : List String
  Metrics : MetricsGo
  DependencyGraph : List String
  Sequence : List SequenceItemGo
  DerivedRootCauseHint : String
  deriving Repr, DecidableEq, Inhabited

/-- One raw entry of the `[]map[string]interface{}` input of `ParseLogs`:
a field is `some v` when the map holds key with a string value `v`, and
`none` when the key is absent or not a string (the failed type assertion
case). -/
structure RawEntry where
  timestamp : Option String
  level : Option String
  service : Option String
  pod : Option String
  message : Option String
  errorClass : Option String
  deriving Repr, DecidableEq, Inhabited

/-- Output record of the agent's free-text normalizer `parseLine`
(`LogOutput`, agent file lines 891-896). -/
structure LogOutput where
  Timestamp : String
  Level : String
  Service : String
  Message : String
  deriving Repr, DecidableEq, Inhabited

/-! ## Log parser (log_preprocessor.go `ParseLogs`, lines 62-117)

`parseEntry` is the per-entry defaulting logic of the loop body
(lines 68-109); `sortLogs` models the `sort.Slice` call (lines 112-114)
by its documented postcondition: a permutation of the input ordered by
the comparator `parsedLogs[i].Timestamp < parsedLogs[j].Timestamp`.
The `rawData == nil` guard (line 63) has no counterpart for a Lean
`List` and no claim concerns it. -/

def parseEntry (now : String) (e : RawEntry) : RawLogGo :=
  { Timestamp :=
      match e.timestamp with
      | some v => if v = "" then now else v
      | none => now
    Level :=
      match e.level with
      | some v => if v = "" then "INFO" else v
      | none => "INFO"
    Service :=
      match e.service with
      | some v => if v = "" then "unknown" else v
      | none => "unknown"
    Pod := e.pod
    Message :=
      match e.message with
      | some v => v
      | none => ""
    ErrorClass := e.errorClass }

def parseEntries (now : String) (rawData : List RawEntry) : List RawLogGo :=
  rawData.map (parseEntry now)

def insertLog (x : RawLogGo) : List RawLogGo → List RawLogGo
  | [] => [x]
  | y :: ys => if strLeB x.Timestamp y.Timestamp then x :: y :: ys else y :: insertLog x ys

/-- Contract-level model of `sort.Slice(parsedLogs, less-by-Timestamp)`:
produces a permutation of the input sorted (non-strictly) by timestamp.
The tie-break of this model is a fixed choice; Go's `sort.Slice` does not
guarantee any particular tie order (see `sortSliceGo` below). -/
def sortLogs (logs : List RawLogGo) : List RawLogGo :=
  logs.foldr insertLog []

def ParseLogs (now : String) (rawData : List RawEntry) : List RawLogGo :=
  sortLogs (parseEntries now rawData)

/-! ## Pattern miner (log_preprocessor.go `MinePatterns`, lines 125-156)

The Go `map[string]LogPatternGo` is modelled as an association list in
insertion order; `mineStep` is one iteration of the loop body.  The map
assignment `patternMap[key] = p` is modelled as replacing every entry
whose key equals `key` — the keys of the accumulator are pairwise
distinct (new keys are only appended when absent), so exactly one entry
is replaced, as in Go.  Go iterates the map in unspecified order when
collecting the result; theorems about patterns are count-based and
order-insensitive. -/

def updatePat (log : RawLogGo) (p : LogPatternGo) : LogPatternGo :=
  let p1 := { p with Count := p.Count + 1 }
  let p2 := if strLtB log.Timestamp p1.FirstOccurrence then { p1 with FirstOccurrence := log.Timestamp } else p1
  if strLtB p2.LastOccurrence log.Timestamp then { p2 with LastOccurrence := log.Timestamp } else p2

def newPat (log : RawLogGo) : LogPatternGo :=
  { Pattern := log.Message
    Count := 0
    FirstOccurrence := log.Timestamp
    LastOccurrence := log.Timestamp
    ErrorClass := log.ErrorClass }

def mineStep (acc : List (String × LogPatternGo)) (log : RawLogGo) : List (String × LogPatternGo) :=
  match List.lookup log.Message acc with
  | some p => acc.map (fun e => if e.1 = log.Message then (e.1, updatePat log p) else e)
  | none => acc ++ [(log.Message, updatePat log (newPat log))]

def MinePatterns (logs : List RawLogGo) : List LogPatternGo :=
  (logs.foldl mineStep []).map (·.2)

/-- Total count attributed to message key `key` in a mined pattern list. -/
def patternCount (ps : List LogPatternGo) (key : String) : Nat :=
  ((ps.filter (fun p => p.Pattern = key)).map (·.Count)).sum

/-! ## Bundle factory (log_preprocessor.go `CreateBundle`, lines 164-240) -/

/-- First-occurrence dedup: the set of keys of `affectedServicesMap`
(lines 172-179).  Go iterates the map in unspecified order; theorems
using this are permutation/membership based. -/
def dedupKeep (l : List String) : List String :=
  l.foldl (fun acc s => if s ∈ acc then acc else acc ++ [s]) []

/-- The `sequence` loop of `CreateBundle` (lines 181-189), carrying the
running index `i`. -/
def buildSeq (i : Nat) : List RawLogGo → List SequenceItemGo
  | [] => []
  | l :: rest =>
    { Timestamp := l.Timestamp
      Typ := "log"
      Message := "[" ++ l.Service ++ "] " ++ l.Message
      SequenceIndex := i } :: buildSeq (i + 1) rest

def isSevere (l : RawLogGo) : Bool :=
  l.Level = "ERROR" || l.Level = "FATAL" || l.Level = "CRITICAL"

def toLowerStr (s : String) : String := String.mk (s.data.map Char.toLower)

def CreateBundle (logs : List RawLogGo) (patterns : List LogPatternGo) :
    Except String CorrelationBundleGo :=
  match logs with
  | [] => .error "cannot create bundle from empty logs"
  | l0 :: rest =>
    let all := l0 :: rest
    let windowStart := l0.Timestamp
    let windowEnd := (all.getLast (by simp)).Timestamp
    let affectedServices := dedupKeep (all.map (·.Service))
    let sequence := buildSeq 0 all
    let rootService := (all.find? isSevere).map (·.Service)
    let fullText := toLowerStr (String.intercalate " " (all.map (·.Message)))
    let latencyZ : ℚ :=
      if containsSub fullText.data "timeout".data || containsSub fullText.data "messages".data then 3 else 0
    let errorRateZ : ℚ := if all.any (fun l => l.Level = "ERROR") then 5 else 0
    .ok
      { WindowStart := windowStart
        WindowEnd := windowEnd
        RootService := rootService
        AffectedServices := affectedServices
        LogPatterns := patterns
        Events := []
        Metrics := { ErrorRateZ := errorRateZ, LatencyZ := latencyZ }
        DependencyGraph := affectedServices
        Sequence := sequence
        DerivedRootCauseHint :=
          match rootService with
          | some s => "Issue detected in " ++ s
          | none => "Unknown issue" }

/-- `LogPreprocessorFullGo.Process` (lines 260-271): parse, mine, build. -/
def Process (now : String) (rawData : List RawEntry) :
    Except String CorrelationBundleGo :=
  let logs := ParseLogs now rawData
  CreateBundle logs (MinePatterns logs)

def exceptOk {ε α : Type} : Except ε α → Bool
  | .ok _ => true
  | .error _ => false

/-! ## Free-text normalizer (agent file `parseLine`, lines 1014-1033)

`timeRegex` there is `^\d{4}-\d{2}-\d{2}`: it matches only a leading
DATE (10 characters), not the time of day.  The level loop searches the
tokens `ERROR`, `WARN`, `DEBUG` — and only those — in order, with
`level` initialized to `"INFO"`. -/

def dateAtStart (cs : List Char) : Bool :=
  match cs with
  | y1 :: y2 :: y3 :: y4 :: s1 :: m1 :: m2 :: s2 :: d1 :: d2 :: _ =>
    y1.isDigit && y2.isDigit && y3.isDigit && y4.isDigit && s1 = '-' &&
      m1.isDigit && m2.isDigit && s2 = '-' && d1.isDigit && d2.isDigit
  | _ => false

def stripDate (cs : List Char) : List Char :=
  if dateAtStart cs then cs.drop 10 else cs

def inferLevel (line : List Char) : String :=
  match ["ERROR", "WARN", "DEBUG"].find? (fun t => containsSub line t.data) with
  | some t => t
  | none => "INFO"

def parseLine (now line service : String) : LogOutput :=
  { Timestamp := now
    Level := inferLevel line.data
    Service := service
    Message := String.mk (trimSpace (stripDate line.data)) }

/-- Severity tagging of `formatLogLine` (main.go lines 288-297): the
value stored under the `"severity"` key, `none` when no token matches
(the key is left unset there). -/
def formatLogLineSeverity (line : String) : Option String :=
  if containsSub line.data "ERROR".data then some "ERROR"
  else if containsSub line.data "WARN".data then some "WARN"
  else if containsSub line.data "INFO".data then some "INFO"
  else if containsSub line.data "DEBUG".data then some "DEBUG"
  else none

/-! ## Rotation-safe tailer (agent file `tailFile`, lines 1080-1128)

One loop iteration is modelled by `tailStep`: the file content visible
during the iteration is `c`, the state holds the reader's byte offset
and the `lastSize` counter.  The model captures:
  * the shrink check `info.Size() < lastSize` followed by reopen from
    offset 0 with `lastSize = 0` (lines 1096-1102);
  * `reader.ReadString('\n')`: consume up to and including the next
    newline; at end of file the remaining bytes are consumed but the
    partial line is discarded (`continue` before `lastSize +=`);
  * `lastSize += len(line)` only on complete lines, then TrimSpace,
    blank-line skip, and `parseLine` emission.
The initial state models `file.Seek(0, io.SeekEnd)` with `lastSize = 0`
(lines 1087-1088).  Reads are modelled unbuffered; content changes are
observed between iterations, as in the polling loop. -/

structure TailState where
  off : Nat
  lastSize : Nat
  deriving Repr, DecidableEq, Inhabited

def tailInit (c0 : List Char) : TailState := ⟨c0.length, 0⟩

def tailRead (now service : String) (c : List Char) (st : TailState) :
    TailState × Option LogOutput :=
  match (c.drop st.off).findIdx? (· = '\n') with
  | some k =>
    let line := (c.drop st.off).take (k + 1)
    let st' : TailState := ⟨st.off + k + 1, st.lastSize + line.length⟩
    let t := trimSpace line
    if t.isEmpty then (st', none)
    else (st', some (parseLine now (String.mk t) service))
  | none => (⟨max st.off c.length, st.lastSize⟩, none)

def tailStep (now service : String) (c : List Char) (st : TailState) :
    TailState × Option LogOutput :=
  if c.length < st.lastSize then tailRead now service c ⟨0, 0⟩
  else tailRead now service c st

def tailRun (now service : String) (polls : List (List Char)) (st : TailState) :
    TailState × List LogOutput :=
  match polls with
  | [] => (st, [])
  | c :: rest =>
    let (st', out) := tailStep now service c st
    let (stf, outs) := tailRun now service rest st'
    (stf, (out.toList) ++ outs)

/-! ## UTF-16 file reader (agent file `readFileAutoUTF`, lines 902-925)

Bytes are `Nat`s below 256; the returned Go string is its byte sequence
(UTF-8).  `toU16LE`/`toU16BE` model the explicit pairing loops, whose
`(len(data)-2)/2` sizing floors away a trailing unpaired byte.
`utf16DecodeGo` is Go's `unicode/utf16.Decode`, `utf8Encode` the UTF-8
encoding done by `string(...)` on the decoded runes. -/

def toU16LE : List Nat → List Nat
  | b0 :: b1 :: rest => (b0 + b1 * 256) :: toU16LE rest
  | _ => []

def toU16BE : List Nat → List Nat
  | b0 :: b1 :: rest => (b0 * 256 + b1) :: toU16BE rest
  | _ => []

def utf16DecodeGo : List Nat → List Nat
  | [] => []
  | [u] =>
    if u < 0xD800 ∨ 0xE000 ≤ u then [u] else [0xFFFD]
  | u :: v :: rest =>
    if u < 0xD800 ∨ 0xE000 ≤ u then u :: utf16DecodeGo (v :: rest)
    else if 0xD800 ≤ u ∧ u < 0xDC00 ∧ 0xDC00 ≤ v ∧ v < 0xE000 then
      (((u - 0xD800) * 1024) + (v - 0xDC00) + 0x10000) :: utf16DecodeGo rest
    else 0xFFFD :: utf16DecodeGo (v :: rest)

def utf8EncodeChar (c : Nat) : List Nat :=
  if c < 0x80 then [c]
  else if c < 0x800 then [0xC0 + c / 64, 0x80 + c % 64]
  else if c < 0x10000 then [0xE0 + c / 4096, 0x80 + (c / 64) % 64, 0x80 + c % 64]
  else [0xF0 + c / 262144, 0x80 + (c / 4096) % 64, 0x80 + (c / 64) % 64, 0x80 + c % 64]

def utf8Encode (cs : List Nat) : List Nat := (cs.map utf8EncodeChar).flatten

def readFileAutoUTF (data : List Nat) : List Nat :=
  match data with
  | 0xFF :: 0xFE :: c :: rest => utf8Encode (utf16DecodeGo (toU16LE (c :: rest)))
  | 0xFE :: 0xFF :: c :: rest => utf8Encode (utf16DecodeGo (toU16BE (c :: rest)))
  | _ => data

/-! ## Go `sort.Slice` runtime algorithm (pdqsort, Go 1.19+)

Port of `sort.Slice`'s actual sorting routine (`pdqsort_func` and its
helpers in Go's `sort` package, present since Go 1.19; the README pins
Go 1.20+).  It is used to exhibit the concrete, non-stable order
`ParseLogs` produces on ties.  Loops are written with explicit fuel that
strictly exceeds their iteration bounds, so on every input considered
the model runs the loop to its real exit condition.  Array accesses use
`get!`/`swap!`; all indices produced by the algorithm are in bounds. -/

section PdqSort

variable {α : Type} [Inhabited α]

def isortShift (less : α → α → Bool) (a : Nat) : Nat → Array α → Array α
  | 0, data => data
  | jm + 1, data =>
    if a < jm + 1 && less (data.get! (jm + 1)) (data.get! jm) then
      isortShift less a jm (data.swap! (jm + 1) jm)
    else data

def isortOuter (less : α → α → Bool) (a b : Nat) : Nat → Nat → Array α → Array α
  | _, 0, data => data
  | i, fuel + 1, data =>
    if i < b then isortOuter less a b (i + 1) fuel (isortShift less a i data)
    else data

/-- Go `insertionSort_func(data, a, b)`. -/
def insertionSortGo (less : α → α → Bool) (data : Array α) (a b : Nat) : Array α :=
  isortOuter less a b (a + 1) (b + 1) data

/-- Go `siftDown_func(data, lo, hi, first)`. -/
def siftDownGo (less : α → α → Bool) (hi first : Nat) : Nat → Nat → Array α → Array α
  | _, 0, data => data
  | root, fuel + 1, data =>
    let child := 2 * root + 1
    if child ≥ hi then data
    else
      let child :=
        if child + 1 < hi && less (data.get! (first + child)) (data.get! (first + child + 1)) then
          child + 1
        else child
      if !less (data.get! (first + root)) (data.get! (first + child)) then data
      else siftDownGo less hi first child fuel (data.swap! (first + root) (first + child))

def heapBuild (less : α → α → Bool) (hi first : Nat) : Nat → Nat → Array α → Array α
  | _, 0, data => data
  | i, fuel + 1, data =>
    let data := siftDownGo less hi first i (hi + 1) data
    if i = 0 then data else heapBuild less hi first (i - 1) fuel data

def heapPop (less : α → α → Bool) (first : Nat) : Nat → Nat → Array α → Array α
  | _, 0, data => data
  | i, fuel + 1, data =>
    let data := siftDownGo less i first 0 (i + 1) (data.swap! first (first + i))
    if i = 0 then data else heapPop less first (i - 1) fuel data

/-- Go `heapSort_func(data, a, b)`. -/
def heapSortGo (less : α → α → Bool) (data : Array α) (a b : Nat) : Array α :=
  let hi := b - a
  let data := if hi ≥ 2 then heapBuild less hi a ((hi - 1) / 2) hi data else data
  if hi ≥ 1 then heapPop less a (hi - 1) hi data else data

/-- Go `order2_func`: orders two indices by the data they point to,
counting comparator-observed inversions. -/
def order2Go (less : α → α → Bool) (data : Array α) (a b swaps : Nat) : Nat × Nat × Nat :=
  if less (data.get! b) (data.get! a) then (b, a, swaps + 1) else (a, b, swaps)

/-- Go `median_func`: median index of three, threading the swap counter. -/
def medianGo (less : α → α → Bool) (data : Array α) (a b c swaps : Nat) : Nat × Nat :=
  let (a1, b1, s1) := order2Go less data a b swaps
  let (b2, _, s2) := order2Go less data b1 c s1
  let (_, b3, s3) := order2Go less data a1 b2 s2
  (b3, s3)

/-- Go `medianAdjacent_func`. -/
def medianAdjacentGo (less : α → α → Bool) (data : Array α) (a swaps : Nat) : Nat × Nat :=
  medianGo less data (a - 1) a (a + 1) swaps

/-- Go `choosePivot_func`; hint encoding: 0 = unknown, 1 = increasing,
2 = decreasing. -/
def choosePivotGo (less : α → α → Bool) (data : Array α) (a b : Nat) : Nat × Nat :=
  let l := b - a
  let i := a + l / 4 * 1
  let j := a + l / 4 * 2
  let k := a + l / 4 * 3
  let (j, swaps) :=
    if l ≥ 8 then
      if l ≥ 50 then
        let (i, s1) := medianAdjacentGo less data i 0
        let (j, s2) := medianAdjacentGo less data j s1
        let (k, s3) := medianAdjacentGo less data k s2
        medianGo less data i j k s3
      else medianGo less data i j k 0
    else (j, 0)
  if swaps = 0 then (j, 1) else if swaps = 12 then (j, 2) else (j, 0)

/-- Go `reverseRange_func(data, a, b)`. -/
def reverseRangeGo : Nat → Nat → Nat → Array α → Array α
  | _, _, 0, data => data
  | i, j, fuel + 1, data =>
    if i < j then reverseRangeGo (i + 1) (j - 1) fuel (data.swap! i j) else data

/-- Go `partialInsertionSort_func(data, a, b)`: returns the possibly
mutated array and whether the range is now sorted. -/
def pisScan (less : α → α → Bool) (data : Array α) (b : Nat) : Nat → Nat → Nat
  | i, 0 => i
  | i, fuel + 1 =>
    if i < b && !less (data.get! i) (data.get! (i - 1)) then pisScan less data b (i + 1) fuel
    else i

def pisShiftL (less : α → α → Bool) : Nat → Nat → Array α → Array α
  | _, 0, data => data
  | j, fuel + 1, data =>
    if j ≥ 1 then
      if !less (data.get! j) (data.get! (j - 1)) then data
      else pisShiftL less (j - 1) fuel (data.swap! j (j - 1))
    else data

def pisShiftR (less : α → α → Bool) (b : Nat) : Nat → Nat → Array α → Array α
  | _, 0, data => data
  | j, fuel + 1, data =>
    if j < b then
      if !less (data.get! j) (data.get! (j - 1)) then data
      else pisShiftR less b (j + 1) fuel (data.swap! j (j - 1))
    else data

def pisLoop (less : α → α → Bool) (a b : Nat) : Nat → Nat → Array α → Array α × Bool
  | _, 0, data => (data, false)
  | i, steps + 1, data =>
    let i := pisScan less data b i (b + 1)
    if i = b then (data, true)
    else if b - a < 50 then (data, false)
    else
      let data := data.swap! i (i - 1)
      let data := if i - a ≥ 2 then pisShiftL less (i - 1) i data else data
      let data := if b - i ≥ 2 then pisShiftR less b (i + 1) (b + 1) data else data
      pisLoop less a b i steps data

def partialInsertionSortGo (less : α → α → Bool) (data : Array α) (a b : Nat) :
    Array α × Bool :=
  pisLoop less a b (a + 1) 5 data

/-- Go `xorshift.Next()` on a 64-bit state. -/
def xorshiftNext (x : Nat) : Nat :=
  let x := (x ^^^ (x <<< 13)) % (2 ^ 64)
  let x := x ^^^ (x >>> 7)
  (x ^^^ (x <<< 17)) % (2 ^ 64)

def bitsLen (n : Nat) : Nat := if n = 0 then 0 else Nat.log2 n + 1

/-- Go `breakPatterns_func(data, a, b)`. -/
def breakPatternsGo (data : Array α) (a b : Nat) : Array α :=
  let length := b - a
  if length ≥ 8 then
    let r1 := xorshiftNext length
    let r2 := xorshiftNext r1
    let r3 := xorshiftNext r2
    let modulus := 2 ^ (bitsLen length)
    let idx := a + (length / 4) * 2 - 1
    let pick := fun (r : Nat) => let o := r % modulus; if o ≥ length then o - length else o
    let data := data.swap! (idx - 1) (a + pick r1)
    let data := data.swap! idx (a + pick r2)
    data.swap! (idx + 1) (a + pick r3)
  else data

def skipI (less : α → α → Bool) (data : Array α) (pa j : Nat) : Nat → Nat → Nat
  | i, 0 => i
  | i, fuel + 1 =>
    if i ≤ j && less (data.get! i) (data.get! pa) then skipI less data pa j (i + 1) fuel
    else i

def skipJ (less : α → α → Bool) (data : Array α) (pa i : Nat) : Nat → Nat → Nat
  | j, 0 => j
  | j, fuel + 1 =>
    if i ≤ j && !less (data.get! j) (data.get! pa) then skipJ less data pa i (j - 1) fuel
    else j

def partMain (less : α → α → Bool) (pa : Nat) : Nat → Nat → Nat → Array α → Array α × Nat
  | _, j, 0, data => (data, j)
  | i, j, fuel + 1, data =>
    let i := skipI less data pa j i (j + 2)
    let j := skipJ less data pa i j (j + 2)
    if j < i then (data, j)
    else partMain less pa (i + 1) (j - 1) fuel (data.swap! i j)

/-- Go `partition_func(data, a, b, pivot)`: returns the mutated array,
the final pivot position, and the already-partitioned flag. -/
def partitionGo (less : α → α → Bool) (data : Array α) (a b pivot : Nat) :
    Array α × Nat × Bool :=
  let data := data.swap! a pivot
  let i := skipI less data a (b - 1) (a + 1) (b + 2)
  let j := skipJ less data a i (b - 1) (b + 2)
  if j < i then (data.swap! j a, j, true)
  else
    let (data, j) := partMain less a (i + 1) (j - 1) (b + 2) (data.swap! i j)
    (data.swap! j a, j, false)

def skipI2 (less : α → α → Bool) (data : Array α) (pa j : Nat) : Nat → Nat → Nat
  | i, 0 => i
  | i, fuel + 1 =>
    if i ≤ j && !less (data.get! pa) (data.get! i) then skipI2 less data pa j (i + 1) fuel
    else i

def skipJ2 (less : α → α → Bool) (data : Array α) (pa i : Nat) : Nat → Nat → Nat
  | j, 0 => j
  | j, fuel + 1 =>
    if i ≤ j && less (data.get! pa) (data.get! j) then skipJ2 less data pa i (j - 1) fuel
    else j

def peqLoop (less : α → α → Bool) (pa : Nat) : Nat → Nat → Nat → Array α → Array α × Nat
  | i, _, 0, data => (data, i)
  | i, j, fuel + 1, data =>
    let i := skipI2 less data pa j i (j + 2)
    let j := skipJ2 less data pa i j (j + 2)
    if j < i then (data, i)
    else peqLoop less pa (i + 1) (j - 1) fuel (data.swap! i j)

/-- Go `partitionEqual_func(data, a, b, pivot)`. -/
def partitionEqualGo (less : α → α → Bool) (data : Array α) (a b pivot : Nat) :
    Array α × Nat :=
  let data := data.swap! a pivot
  peqLoop less a (a + 1) (b - 1) (b + 2) data

/-- Go `pdqsort_func(data, a, b, limit)`; `fuel` bounds the combined
loop-iteration/recursion depth, which is at most `b - a` plus the heap
fallbacks. -/
def pdqsortGo (less : α → α → Bool) :
    Nat → Array α → Nat → Nat → Nat → Bool → Bool → Array α
  | 0, data, _, _, _, _, _ => data
  | fuel + 1, data, a, b, limit, wasBalanced, wasPartitioned =>
    let length := b - a
    if length ≤ 12 then insertionSortGo less data a b
    else if limit = 0 then heapSortGo less data a b
    else
      let (data, limit) :=
        if !wasBalanced then (breakPatternsGo data a b, limit - 1) else (data, limit)
      let (pivot, hint) := choosePivotGo less data a b
      let (data, pivot, hint) :=
        if hint = 2 then (reverseRangeGo a (b - 1) (b + 1) data, (b - 1) - (pivot - a), 1)
        else (data, pivot, hint)
      let (data, sorted) :=
        if wasBalanced && wasPartitioned && hint = 1 then
          partialInsertionSortGo less data a b
        else (data, false)
      if sorted then data
      else if a > 0 && !less (data.get! (a - 1)) (data.get! pivot) then
        let (data, mid) := partitionEqualGo less data a b pivot
        pdqsortGo less fuel data mid b limit wasBalanced wasPartitioned
      else
        let (data, mid, alreadyPartitioned) := partitionGo less data a b pivot
        let leftLen := mid - a
        let rightLen := b - mid
        let balanceThreshold := length / 8
        let wb := decide (min leftLen rightLen ≥ balanceThreshold)
        if leftLen < rightLen then
          let data := pdqsortGo less fuel data a mid limit true true
          pdqsortGo less fuel data (mid + 1) b limit wb alreadyPartitioned
        else
          let data := pdqsortGo less fuel data (mid + 1) b limit true true
          pdqsortGo less fuel data a mid limit wb alreadyPartitioned

/-- Go `sort.Slice(x, less)` (Go 1.19+ runtime behaviour). -/
def sortSliceGo (less : α → α → Bool) (l : List α) : List α :=
  (pdqsortGo less (2 * l.length + 16) l.toArray 0 l.length (bitsLen l.length) true true).toList

end PdqSort

/-- `ParseLogs` with `sort.Slice` modelled by the Go 1.19+ runtime
algorithm instead of the contract-level `sortLogs`. -/
def ParseLogsPdq (now : String) (rawData : List RawEntry) : List RawLogGo :=
  sortSliceGo (fun x y => strLtB x.Timestamp y.Timestamp) (parseEntries now rawData)

/-- `Process` with `sort.Slice` modelled by the Go 1.19+ runtime
algorithm. -/
def ProcessPdq (now : String) (rawData : List RawEntry) :
    Except String CorrelationBundleGo :=
  let logs := ParseLogsPdq now rawData
  CreateBundle logs (MinePatterns logs)

/-! ## Concrete inputs used by witnesses and counterexamples -/

/-- Record used by the C6 witness. -/
def logC6 : RawLogGo := ⟨"1", "INFO", "s", none, "m", none⟩

/-- Raw entry with the given timestamp and message, level INFO,
service `s`. -/
def mkE (ts msg : String) : RawEntry := ⟨some ts, some "INFO", some "s", none, some msg, none⟩

/-- Thirteen raw entries: long enough that Go's `sort.Slice` leaves the
insertion-sort regime (n > 12) and partitions.  Arrival positions 0, 6
and 7 share the timestamp "5"; arrival positions 1-5 share the
timestamp "1". -/
def raw13 : List RawEntry :=
  [mkE "5" "m00", mkE "1" "m01", mkE "1" "m02", mkE "1" "m03", mkE "1" "m04",
   mkE "1" "m05", mkE "5" "m06", mkE "5" "m07", mkE "6" "m08", mkE "7" "m09",
   mkE "8" "m10", mkE "9" "m11", mkE "9" "m12"]

/-- The bundle sequence the pipeline produces from `raw13` under the Go
1.19+ `sort.Slice` runtime behaviour. -/
def seq13 : List SequenceItemGo :=
  match ProcessPdq "T0" raw13 with
  | .ok b => b.Sequence
  | .error _ => []

/-- The three-record scenario input of claim C8 (timestamps are free in
the scenario; distinct ascending ones are used, making the sorted order
unique). -/
def raw8 : List RawEntry :=
  [⟨some "2024-01-01T00:00:01Z", some "ERROR", some "svc-a", none, some "conn timeout", none⟩,
   ⟨some "2024-01-01T00:00:02Z", some "ERROR", some "svc-a", none, some "conn timeout", none⟩,
   ⟨some "2024-01-01T00:00:03Z", some "INFO", some "svc-b", none, some "db ok", none⟩]

/-- Bundle produced by `Process "T" [mkE "2" "b", mkE "1" "a"]`; used by
the C1 witness. -/
def bundleW : CorrelationBundleGo :=
  { WindowStart := "1"
    WindowEnd := "2"
    RootService := none
    AffectedServices := ["s"]
    LogPatterns := [⟨"a", 1, "1", "1", none⟩, ⟨"b", 1, "2", "2", none⟩]
    Events := []
    Metrics := ⟨0, 0⟩
    DependencyGraph := ["s"]
    Sequence := [⟨"1", "log", "[s] a", 0⟩, ⟨"2", "log", "[s] b", 1⟩]
    DerivedRootCauseHint := "Unknown issue" }

/-- Records used by the C5 witness. -/
def logsC5 : List RawLogGo :=
  [⟨"2", "INFO", "s", none, "x", none⟩, ⟨"1", "INFO", "s", none, "y", none⟩]

/-- Bundle produced by `CreateBundle (sortLogs logsC5) []`; used by the
C5 witness. -/
def bundle5W : CorrelationBundleGo :=
  { WindowStart := "1"
    WindowEnd := "2"
    RootService := none
    AffectedServices := ["s"]
    LogPatterns := []
    Events := []
    Metrics := ⟨0, 0⟩
    DependencyGraph := ["s"]
    Sequence := [⟨"1", "log", "[s] y", 0⟩, ⟨"2", "log", "[s] x", 1⟩]
    DerivedRootCauseHint := "Unknown issue" }

/-- The bundle produced by `Process "T" raw8` (claim C8). -/
def bundle8 : CorrelationBundleGo :=
  { WindowStart := "2024-01-01T00:00:01Z"
    WindowEnd := "2024-01-01T00:00:03Z"
    RootService := some "svc-a"
    AffectedServices := ["svc-a", "svc-b"]
    LogPatterns :=
      [⟨"conn timeout", 2, "2024-01-01T00:00:01Z", "2024-01-01T00:00:02Z", none⟩,
       ⟨"db ok", 1, "2024-01-01T00:00:03Z", "2024-01-01T00:00:03Z", none⟩]
    Events := []
    Metrics := ⟨5, 3⟩
    DependencyGraph := ["svc-a", "svc-b"]
    Sequence :=
      [⟨"2024-01-01T00:00:01Z", "log", "[svc-a] conn timeout", 0⟩,
       ⟨"2024-01-01T00:00:02Z", "log", "[svc-a] conn timeout", 1⟩,
       ⟨"2024-01-01T00:00:03Z", "log", "[svc-b] db ok", 2⟩]
    DerivedRootCauseHint := "Issue detected in svc-a" }

/-! ## Order-theoretic facts about the byte-wise string order -/

theorem ltChars_irrefl (l : List Char) : ltChars l l = false := by
  induction l with
  | nil => rfl
  | cons c cs ih => simp [ltChars, Nat.lt_irrefl, ih]

theorem ltChars_asymm : ∀ {a b : List Char}, ltChars a b = true → ltChars b a = false
  | [], [], h => by simp [ltChars] at h
  | [], _ :: _, _ => by simp [ltChars]
  | _ :: _, [], h => by simp [ltChars] at h
  | x :: xs, y :: ys, h => by
    by_cases hxy : x.toNat < y.toNat
    · have hyx : ¬ y.toNat < x.toNat := Nat.lt_asymm hxy
      simp [ltChars, hxy, hyx]
    · by_cases hyx : y.toNat < x.toNat
      · simp [ltChars, hxy, hyx] at h
      · have hrec : ltChars xs ys = true := by simpa [ltChars, hxy, hyx] using h
        simpa [ltChars, hxy, hyx] using ltChars_asymm hrec

theorem ltChars_lt_of_lt_of_ge :
    ∀ {c a b : List Char}, ltChars c a = true → ltChars b a = false → ltChars c b = true
  | [], [], _, h1, _ => by simp [ltChars] at h1
  | [], _ :: _, [], _, h2 => by simp [ltChars] at h2
  | [], _ :: _, _ :: _, _, _ => by simp [ltChars]
  | _ :: _, [], _, h1, _ => by simp [ltChars] at h1
  | _ :: _, y :: ys, [], _, h2 => by simp [ltChars] at h2
  | x :: xs, y :: ys, z :: zs, h1, h2 => by
    have hzy : ¬ z.toNat < y.toNat := by
      intro hlt
      simp [ltChars, hlt] at h2
    by_cases hxy : x.toNat < y.toNat
    · have hxz : x.toNat < z.toNat := Nat.lt_of_lt_of_le hxy (Nat.le_of_not_lt hzy)
      simp [ltChars, hxz]
    · by_cases hyx : y.toNat < x.toNat
      · simp [ltChars, hxy, hyx] at h1
      · have hrec1 : ltChars xs ys = true := by simpa [ltChars, hxy, hyx] using h1
        by_cases hyz : y.toNat < z.toNat
        · have hxz : x.toNat < z.toNat := Nat.lt_of_le_of_lt (Nat.le_of_not_lt hyx) hyz
          simp [ltChars, hxz]
        · have hrec2 : ltChars zs ys = false := by simpa [ltChars, hzy, hyz] using h2
          have hxz : ¬ x.toNat < z.toNat := fun hlt =>
            hyz (Nat.lt_of_le_of_lt (Nat.le_of_not_lt hxy) hlt)
          have hzx : ¬ z.toNat < x.toNat := fun hlt =>
            hyx (Nat.lt_of_le_of_lt (Nat.le_of_not_lt hzy) hlt)
          simpa [ltChars, hxz, hzx] using ltChars_lt_of_lt_of_ge hrec1 hrec2

theorem StrLe.refl (a : String) : StrLe a a := by
  simp [StrLe, strLeB, strLtB, ltChars_irrefl]

theorem StrLe.trans {a b c : String} (h1 : StrLe a b) (h2 : StrLe b c) : StrLe a c := by
  simp only [StrLe, strLeB, strLtB, Bool.not_eq_true', Bool.not_eq_true] at *
  by_cases hca : ltChars c.data a.data = true
  · have := ltChars_lt_of_lt_of_ge hca h1
    simp [this] at h2
  · simpa using hca

theorem StrLe.total (a b : String) : StrLe a b ∨ StrLe b a := by
  simp only [StrLe, strLeB, strLtB, Bool.not_eq_true', Bool.not_eq_true]
  by_cases h : ltChars b.data a.data = true
  · exact Or.inr (ltChars_asymm h)
  · exact Or.inl (by simpa using h)

/-! ## Correctness of the contract-level sort model -/

/-- Timestamp order on records. -/
def LeTs (x y : RawLogGo) : Prop := StrLe x.Timestamp y.Timestamp

theorem insertLog_perm (x : RawLogGo) (l : List RawLogGo) :
    (insertLog x l).Perm (x :: l) := by
  induction l with
  | nil => exact List.Perm.refl _
  | cons y ys ih =>
    by_cases h : strLeB x.Timestamp y.Timestamp = true
    · simp [insertLog, h]
    · simp only [insertLog, h, if_false]
      exact (ih.cons y).trans (List.Perm.swap x y ys)

theorem sortLogs_perm (l : List RawLogGo) : (sortLogs l).Perm l := by
  induction l with
  | nil => exact List.Perm.refl _
  | cons x xs ih =>
    have : sortLogs (x :: xs) = insertLog x (sortLogs xs) := rfl
    rw [this]
    exact (insertLog_perm x (sortLogs xs)).trans (ih.cons x)

theorem insertLog_pairwise (x : RawLogGo) {l : List RawLogGo}
    (h : l.Pairwise LeTs) : (insertLog x l).Pairwise LeTs := by
  induction l with
  | nil => simp [insertLog, List.Pairwise]
  | cons y ys ih =>
    rcases List.pairwise_cons.mp h with ⟨hy, hys⟩
    by_cases hxy : strLeB x.Timestamp y.Timestamp = true
    · simp only [insertLog, hxy, if_true]
      refine List.pairwise_cons.mpr ⟨?_, h⟩
      intro z hz
      rcases List.mem_cons.mp hz with rfl | hz
      · exact hxy
      · exact StrLe.trans hxy (hy z hz)
    · simp only [insertLog, hxy, if_false]
      refine List.pairwise_cons.mpr ⟨?_, ih hys⟩
      intro z hz
      have hz' : z ∈ x :: ys := (insertLog_perm x ys).mem_iff.mp hz
      rcases List.mem_cons.mp hz' with rfl | hz'
      · rcases StrLe.total z.Timestamp y.Timestamp with h1 | h1
        · exact absurd h1 hxy
        · exact h1
      · exact hy z hz'

theorem sortLogs_pairwise (l : List RawLogGo) : (sortLogs l).Pairwise LeTs := by
  induction l with
  | nil => simp [sortLogs, List.Pairwise]
  | cons x xs ih => exact insertLog_pairwise x ih

theorem pairwise_head_le {l0 : RawLogGo} {rest : List RawLogGo}
    (h : (l0 :: rest).Pairwise LeTs) :
    ∀ x ∈ l0 :: rest, StrLe l0.Timestamp x.Timestamp := by
  intro x hx
  rcases List.mem_cons.mp hx with rfl | hx
  · exact StrLe.refl _
  · exact (List.pairwise_cons.mp h).1 x hx

theorem pairwise_le_getLast :
    ∀ (l : List RawLogGo) (hne : l ≠ []), l.Pairwise LeTs →
      ∀ x ∈ l, StrLe x.Timestamp (l.getLast hne).Timestamp
  | [], hne, _, _, _ => absurd rfl hne
  | [a], _, _, x, hx => by
    rcases List.mem_singleton.mp hx with rfl
    exact StrLe.refl _
  | a :: b :: rest, _, h, x, hx => by
    rcases List.pairwise_cons.mp h with ⟨ha, htail⟩
    have hlast : (a :: b :: rest).getLast (by simp) = (b :: rest).getLast (by simp) := by
      simp [List.getLast]
    rw [hlast]
    rcases List.mem_cons.mp hx with rfl | hx
    · exact ha _ (List.getLast_mem (by simp))
    · exact pairwise_le_getLast (b :: rest) (by simp) htail x hx

/-! ## Structure of the bundle `sequence` -/

theorem buildSeq_map_ts (i : Nat) (l : List RawLogGo) :
    (buildSeq i l).map (·.Timestamp) = l.map (·.Timestamp) := by
  induction l generalizing i with
  | nil => rfl
  | cons x xs ih => simp [buildSeq, ih]

theorem buildSeq_map_pair (i : Nat) (l : List RawLogGo) :
    (buildSeq i l).map (fun s => (s.Timestamp, s.Message))
      = l.map (fun x => (x.Timestamp, "[" ++ x.Service ++ "] " ++ x.Message)) := by
  induction l generalizing i with
  | nil => rfl
  | cons x xs ih => simp [buildSeq, ih]

theorem buildSeq_length (i : Nat) (l : List RawLogGo) :
    (buildSeq i l).length = l.length := by
  induction l generalizing i with
  | nil => rfl
  | cons x xs ih => simp [buildSeq, ih]

theorem buildSeq_map_idx (i : Nat) (l : List RawLogGo) :
    (buildSeq i l).map (·.SequenceIndex) = List.range' i l.length := by
  induction l generalizing i with
  | nil => rfl
  | cons x xs ih => simp [buildSeq, ih, List.range']

/-! ## Counting facts about the pattern miner -/

/-- Well-formedness of the mining accumulator: each entry's stored
pattern equals its key, and keys are pairwise distinct (as for a Go
map). -/
def accWF (acc : List (String × LogPatternGo)) : Prop :=
  (∀ e ∈ acc, e.2.Pattern = e.1) ∧ (acc.map (·.1)).Nodup

/-- Count attributed to `key` in the accumulator. -/
def accCount (acc : List (String × LogPatternGo)) (key : String) : Nat :=
  ((acc.filter (fun e => e.1 = key)).map (·.2.Count)).sum

theorem accCount_cons (e : String × LogPatternGo) (l : List (String × LogPatternGo))
    (key : String) :
    accCount (e :: l) key = (if e.1 = key then e.2.Count else 0) + accCount l key := by
  by_cases h : e.1 = key <;> simp [accCount, List.filter_cons, h]

theorem accCount_append_single (acc : List (String × LogPatternGo)) (m : String)
    (p : LogPatternGo) (key : String) :
    accCount (acc ++ [(m, p)]) key = accCount acc key + (if m = key then p.Count else 0) := by
  by_cases h : m = key <;> simp [accCount, List.filter_append, List.filter_cons, h]

theorem updatePat_Count (log : RawLogGo) (p : LogPatternGo) :
    (updatePat log p).Count = p.Count + 1 := by
  unfold updatePat
  dsimp only
  split <;> split <;> rfl

theorem updatePat_Pattern (log : RawLogGo) (p : LogPatternGo) :
    (updatePat log p).Pattern = p.Pattern := by
  unfold updatePat
  dsimp only
  split <;> split <;> rfl

theorem lookup_none_not_mem {m : String} :
    ∀ {acc : List (String × LogPatternGo)}, List.lookup m acc = none →
      m ∉ acc.map (·.1)
  | [], _ => by simp
  | (k, v) :: es, h => by
    by_cases hk : k = m
    · subst hk
      simp [List.lookup] at h
    · have hmk : (m == k) = false := by
        simp only [beq_eq_false_iff_ne, ne_eq]
        exact fun h2 => hk h2.symm
      have h' : List.lookup m es = none := by
        simpa [List.lookup, hmk] using h
      simpa [hk, Ne.symm hk] using lookup_none_not_mem h'

theorem lookup_some_mem {m : String} {p : LogPatternGo} :
    ∀ {acc : List (String × LogPatternGo)}, List.lookup m acc = some p →
      (m, p) ∈ acc
  | [], h => by simp [List.lookup] at h
  | (k, v) :: es, h => by
    by_cases hk : k = m
    · subst hk
      have hv : v = p := by simpa [List.lookup] using h
      subst hv
      exact List.mem_cons_self _ _
    · have hmk : (m == k) = false := by
        simp only [beq_eq_false_iff_ne, ne_eq]
        exact fun h2 => hk h2.symm
      have h' : List.lookup m es = some p := by
        simpa [List.lookup, hmk] using h
      exact List.mem_cons_of_mem _ (lookup_some_mem h')

theorem map_replace_eq_self {m : String} {q : LogPatternGo}
    {es : List (String × LogPatternGo)} (h : m ∉ es.map (·.1)) :
    es.map (fun e => if e.1 = m then (e.1, q) else e) = es := by
  have : ∀ e ∈ es, (if e.1 = m then (e.1, q) else e) = e := by
    intro e he
    have : e.1 ≠ m := by
      intro hm
      exact h (hm ▸ List.mem_map_of_mem (·.1) he)
    simp [this]
  calc es.map (fun e => if e.1 = m then (e.1, q) else e) = es.map id :=
        List.map_congr_left this
    _ = es := List.map_id es

theorem accCount_replace {m : String} {p : LogPatternGo} (q : LogPatternGo) (key : String) :
    ∀ {acc : List (String × LogPatternGo)}, (acc.map (·.1)).Nodup →
      List.lookup m acc = some p →
      accCount (acc.map (fun e => if e.1 = m then (e.1, q) else e)) key
          + (if m = key then p.Count else 0)
        = accCount acc key + (if m = key then q.Count else 0)
  | [], _, hl => by simp [List.lookup] at hl
  | (k, v) :: es, hnd, hl => by
    rcases List.nodup_cons.mp hnd with ⟨hk_not, hnd'⟩
    by_cases hk : k = m
    · subst hk
      have hv : v = p := by simpa [List.lookup] using hl
      subst hv
      have hes : es.map (fun e => if e.1 = k then (e.1, q) else e) = es :=
        map_replace_eq_self hk_not
      simp only [List.map_cons, if_pos rfl, hes, accCount_cons]
      by_cases hkey : k = key <;> simp [hkey] <;> omega
    · have hmk : (m == k) = false := by
        simp only [beq_eq_false_iff_ne, ne_eq]
        exact fun h2 => hk h2.symm
      have hl' : List.lookup m es = some p := by
        simpa [List.lookup, hmk] using hl
      have ih := accCount_replace q key hnd' hl'
      simp only [List.map_cons, if_neg hk, accCount_cons]
      omega

theorem mineStep_WF {acc : List (String × LogPatternGo)} {log : RawLogGo}
    (h : accWF acc) : accWF (mineStep acc log) := by
  rcases h with ⟨hpat, hnd⟩
  unfold mineStep
  cases hl : List.lookup log.Message acc with
  | some p =>
    constructor
    · intro e he
      rcases List.mem_map.mp he with ⟨e0, he0, rfl⟩
      by_cases hk : e0.1 = log.Message
      · have hp : p.Pattern = log.Message := hpat _ (lookup_some_mem hl)
        simp [hk, updatePat_Pattern, hp]
      · simp only [if_neg hk]
        exact hpat _ he0
    · have : (acc.map (fun e => if e.1 = log.Message then (e.1, updatePat log p) else e)).map (·.1)
          = acc.map (·.1) := by
        rw [List.map_map]
        refine List.map_congr_left ?_
        intro e _
        by_cases hk : e.1 = log.Message <;> simp [hk]
      rw [this]
      exact hnd
  | none =>
    constructor
    · intro e he
      rcases List.mem_append.mp he with he | he
      · exact hpat _ he
      · rcases List.mem_singleton.mp he with rfl
        simp [updatePat_Pattern, newPat]
    · have hnot := lookup_none_not_mem hl
      simp only [List.map_append, List.map_cons, List.map_nil]
      refine List.Nodup.append hnd (by simp) ?_
      intro a ha hb
      rw [List.mem_singleton] at hb
      exact hnot (hb ▸ ha)

theorem foldl_mine_WF :
    ∀ (logs : List RawLogGo) (acc : List (String × LogPatternGo)), accWF acc →
      accWF (logs.foldl mineStep acc)
  | [], _, h => h
  | log :: logs, acc, h => foldl_mine_WF logs _ (mineStep_WF h)

theorem foldl_mine_count (key : String) :
    ∀ (logs : List RawLogGo) (acc : List (String × LogPatternGo)), accWF acc →
      accCount (logs.foldl mineStep acc) key
        = accCount acc key + logs.countP (fun l => l.Message = key)
  | [], _, _ => by simp
  | log :: logs, acc, h => by
    have hstep : accCount (mineStep acc log) key
        = accCount acc key + (if log.Message = key then 1 else 0) := by
      unfold mineStep
      cases hl : List.lookup log.Message acc with
      | some p =>
        have := accCount_replace (updatePat log p) key h.2 hl
        rw [updatePat_Count] at this
        by_cases hk : log.Message = key
        · simp [hk] at this ⊢
          omega
        · simp [hk] at this ⊢
          omega
      | none =>
        rw [accCount_append_single]
        have : (updatePat log (newPat log)).Count = 1 := by
          rw [updatePat_Count]; rfl
        rw [this]
    have ih := foldl_mine_count key logs (mineStep acc log) (mineStep_WF h)
    simp only [List.foldl_cons, ih, hstep, List.countP_cons]
    by_cases hk : log.Message = key <;> simp [hk] <;> omega

theorem patternCount_cons (p : LogPatternGo) (ps : List LogPatternGo) (key : String) :
    patternCount (p :: ps) key
      = (if p.Pattern = key then p.Count else 0) + patternCount ps key := by
  by_cases h : p.Pattern = key <;> simp [patternCount, List.filter_cons, h]

theorem patternCount_eq_accCount :
    ∀ {acc : List (String × LogPatternGo)}, (∀ e ∈ acc, e.2.Pattern = e.1) →
      ∀ key, patternCount (acc.map (·.2)) key = accCount acc key
  | [], _, key => by simp [patternCount, accCount]
  | e :: es, h, key => by
    have hhead : e.2.Pattern = e.1 := h e (List.mem_cons_self _ _)
    have ih := patternCount_eq_accCount (fun x hx => h x (List.mem_cons_of_mem _ hx)) key
    rw [List.map_cons, patternCount_cons, accCount_cons, ih, hhead]

/-- The central counting fact: the count mined for a message key equals
the number of records carrying that message. -/
theorem patternCount_MinePatterns (logs : List RawLogGo) (key : String) :
    patternCount (MinePatterns logs) key = logs.countP (fun l => l.Message = key) := by
  have hWF : accWF ([] : List (String × LogPatternGo)) := by
    constructor
    · intro e he; simp at he
    · simp
  have h1 := foldl_mine_count key logs [] hWF
  have h2 := patternCount_eq_accCount (foldl_mine_WF logs [] hWF).1 key
  unfold MinePatterns
  rw [h2, h1]
  simp [accCount]

/-! ## Claim theorems -/

/-- Claim C2, counterexample: the claim says a line containing both INFO
and DEBUG yields level INFO; `parseLine` yields DEBUG for such a line,
because its token list (`[]string{"ERROR", "WARN", "DEBUG"}`) does not
contain INFO. -/
theorem C2_cex : (parseLine "T" "x INFO DEBUG y" "svc").Level ≠ "INFO" ∧
    (parseLine "T" "x INFO DEBUG y" "svc").Level = "DEBUG" := by
  constructor
  · decide
  · decide

/-- Claim C2 (amended): for every free-text line, `parseLine` infers the
record's level by substring search for the literal tokens ERROR, WARN,
DEBUG — in that fixed priority order, first match winning — and INFO is
not among the searched tokens: a line containing none of the three
searched tokens (even one containing INFO) defaults to level INFO, and a
line containing both INFO and DEBUG yields DEBUG. -/
theorem C2_level_priority (now line service : String) :
    (parseLine now line service).Level =
      (if containsSub line.data "ERROR".data = true then "ERROR"
       else if containsSub line.data "WARN".data = true then "WARN"
       else if containsSub line.data "DEBUG".data = true then "DEBUG"
       else "INFO") := by
  unfold parseLine inferLevel
  dsimp only
  by_cases h1 : containsSub line.data "ERROR".data = true
  · simp [List.find?, h1]
  · by_cases h2 : containsSub line.data "WARN".data = true
    · simp [List.find?, Bool.of_not_eq_true h1, h2]
    · by_cases h3 : containsSub line.data "DEBUG".data = true
      · simp [List.find?, Bool.of_not_eq_true h1, Bool.of_not_eq_true h2, h3]
      · simp [List.find?, Bool.of_not_eq_true h1, Bool.of_not_eq_true h2,
          Bool.of_not_eq_true h3]

/-- Claim C3, counterexample: the claim says the entire leading
date/time `YYYY-MM-DD[ T]HH:MM:SS` is stripped, so the record's message
for the line below would be `"hello"`; the code's `timeRegex`
(`^\d{4}-\d{2}-\d{2}`) strips only the date, leaving the time of day in
the message. -/
theorem C3_cex :
    (parseLine "T" "2024-01-02 10:11:12 hello" "svc").Message ≠ "hello" ∧
    (parseLine "T" "2024-01-02 10:11:12 hello" "svc").Message = "10:11:12 hello" := by
  constructor
  · decide
  · decide

/-- Claim C3 (amended): for every free-text line beginning with a date
of the form `YYYY-MM-DD`, `parseLine` strips exactly that 10-character
date (and trims surrounding whitespace); a following time of day is not
stripped and remains in the message. -/
theorem C3_date_strip (now line service : String)
    (h : dateAtStart line.data = true) :
    (parseLine now line service).Message = String.mk (trimSpace (line.data.drop 10)) := by
  unfold parseLine stripDate
  simp [h]

/-- Claim C3 witness. -/
theorem C3_witness :
    (parseLine "T" "2024-01-02T10:11:12 ok" "s").Message
      = String.mk (trimSpace (("2024-01-02T10:11:12 ok".data).drop 10)) :=
  C3_date_strip "T" "2024-01-02T10:11:12 ok" "s" (by decide)

/-- Claim C9: the normalized record's timestamp is always the wall-clock
value `now` supplied at normalization time; the line's content — in
particular any leading date/time — never influences the timestamp. -/
theorem C9_timestamp_is_wallclock (now line service : String) :
    (parseLine now line service).Timestamp = now
    ∧ ∀ line2 : String,
        (parseLine now line service).Timestamp = (parseLine now line2 service).Timestamp :=
  ⟨rfl, fun _ => rfl⟩

/-- Claim C6: building a bundle from an empty record sequence fails with
the InvalidInput error (`"cannot create bundle from empty logs"`) and
constructs no bundle value, while every non-empty record sequence
succeeds. -/
theorem C6_empty_rejected :
    (∀ ps, CreateBundle [] ps = .error "cannot create bundle from empty logs")
    ∧ (∀ (logs : List RawLogGo) (ps : List LogPatternGo), logs ≠ [] →
        exceptOk (CreateBundle logs ps) = true) := by
  constructor
  · intro ps; rfl
  · intro logs ps hne
    cases logs with
    | nil => exact absurd rfl hne
    | cons l0 rest => rfl

/-- Claim C6 witness. -/
theorem C6_witness : exceptOk (CreateBundle [logC6] []) = true :=
  C6_empty_rejected.2 _ _ (by decide)

/-- Claim C7: pattern mining is associative over counts — mining a
concatenation of record lists attributes to each message key the sum of
the counts mined from the pieces. -/
theorem C7_mining_additive (lss : List (List RawLogGo)) (key : String) :
    patternCount (MinePatterns lss.flatten) key
      = (lss.map (fun ls => patternCount (MinePatterns ls) key)).sum := by
  induction lss with
  | nil => simp [MinePatterns, patternCount]
  | cons ls lss ih =>
    rw [List.flatten_cons, patternCount_MinePatterns, List.countP_append,
      List.map_cons, List.sum_cons, ← ih,
      patternCount_MinePatterns, patternCount_MinePatterns]

set_option maxHeartbeats 1000000 in
/-- Claim C1, counterexample: the claim requires the bundle sequence to
be stable on timestamp ties (equal-timestamp records in arrival order).
Under the runtime behaviour actually implemented by Go's `sort.Slice`
(pdqsort, present since Go 1.19; the README pins Go 1.20+; `sort.Slice`
is documented as not stable and the code does not use
`sort.SliceStable`), processing `raw13` yields a sequence in which
record `m05` (arrival position 5, timestamp "1") precedes records
`m01`-`m04` (arrival positions 1-4, same timestamp "1"), and record
`m06` (arrival position 6, timestamp "5") precedes record `m00`
(arrival position 0, timestamp "5"): equal-timestamp records do not
retain their arrival order.  The third conjunct states the violation
directly: the timestamp-"5" records of the sequence are not in arrival
order. -/
theorem C1_cex :
    seq13.map (fun s => s.Message)
      = ["[s] m05", "[s] m01", "[s] m02", "[s] m03", "[s] m04", "[s] m06", "[s] m00",
         "[s] m07", "[s] m08", "[s] m09", "[s] m10", "[s] m11", "[s] m12"]
    ∧ seq13.map (fun s => s.Timestamp)
      = ["1", "1", "1", "1", "1", "5", "5", "5", "6", "7", "8", "9", "9"]
    ∧ ((seq13.filter (fun s => s.Timestamp = "5")).map (fun s => s.Message)
        ≠ ((parseEntries "T0" raw13).filter (fun l => l.Timestamp = "5")).map
            (fun l => "[" ++ l.Service ++ "] " ++ l.Message)) := by
  refine ⟨by rfl, by rfl, ?_⟩
  have h1 : (seq13.filter (fun s => s.Timestamp = "5")).map (fun s => s.Message)
      = ["[s] m06", "[s] m00", "[s] m07"] := by rfl
  have h2 : ((parseEntries "T0" raw13).filter (fun l => l.Timestamp = "5")).map
        (fun l => "[" ++ l.Service ++ "] " ++ l.Message)
      = ["[s] m00", "[s] m06", "[s] m07"] := by rfl
  rw [h1, h2]
  decide

/-- Claim C1 (amended): for every collection of raw entries processed
into a bundle, the bundle's `sequence` contains one entry per record —
its (timestamp, message) pairs are a permutation of the parsed records'
(timestamp, "[service] message") pairs — ordered by timestamp ascending,
with `SequenceIndex` equal to the position in the sequence.  Records
with equal timestamps appear in an order the sort does not pin down
(`sort.Slice` is not stable; see `C1_cex`), so the stability clause of
the original claim is dropped. -/
theorem C1_sequence_sorted (now : String) (raw : List RawEntry)
    (b : CorrelationBundleGo) (h : Process now raw = .ok b) :
    (b.Sequence.map (fun s => s.Timestamp)).Pairwise StrLe
    ∧ (b.Sequence.map (fun s => (s.Timestamp, s.Message))).Perm
        ((parseEntries now raw).map (fun l => (l.Timestamp, "[" ++ l.Service ++ "] " ++ l.Message)))
    ∧ b.Sequence.map (fun s => s.SequenceIndex) = List.range b.Sequence.length := by
  unfold Process ParseLogs at h
  cases hl : sortLogs (parseEntries now raw) with
  | nil =>
    rw [hl] at h
    simp [CreateBundle] at h
  | cons l0 rest =>
    rw [hl] at h
    simp only [CreateBundle, Except.ok.injEq] at h
    subst h
    have hsorted : (l0 :: rest).Pairwise LeTs := hl ▸ sortLogs_pairwise (parseEntries now raw)
    have hperm : (l0 :: rest).Perm (parseEntries now raw) := hl ▸ sortLogs_perm _
    refine ⟨?_, ?_, ?_⟩
    · show ((buildSeq 0 (l0 :: rest)).map (fun s => s.Timestamp)).Pairwise StrLe
      rw [buildSeq_map_ts]
      exact List.pairwise_map.mpr hsorted
    · show ((buildSeq 0 (l0 :: rest)).map (fun s => (s.Timestamp, s.Message))).Perm _
      rw [buildSeq_map_pair]
      exact hperm.map _
    · show (buildSeq 0 (l0 :: rest)).map (fun s => s.SequenceIndex)
        = List.range (buildSeq 0 (l0 :: rest)).length
      rw [buildSeq_map_idx, buildSeq_length, List.range_eq_range']

/-- Claim C1 witness: the amended sequence properties at a concrete
input. -/
theorem C1_witness :
    (bundleW.Sequence.map (fun s => s.Timestamp)).Pairwise StrLe
    ∧ (bundleW.Sequence.map (fun s => (s.Timestamp, s.Message))).Perm
        ((parseEntries "T" [mkE "2" "b", mkE "1" "a"]).map
          (fun l => (l.Timestamp, "[" ++ l.Service ++ "] " ++ l.Message)))
    ∧ bundleW.Sequence.map (fun s => s.SequenceIndex)
        = List.range bundleW.Sequence.length :=
  C1_sequence_sorted "T" [mkE "2" "b", mkE "1" "a"] bundleW (by rfl)

/-- Claim C5: for every non-empty record set processed into a bundle,
`windowStart ≤ windowEnd`, `windowStart` is the minimum record timestamp
and `windowEnd` the maximum record timestamp of the input records
(non-emptiness is forced by the success hypothesis). -/
theorem C5_window_bounds (logs : List RawLogGo) (ps : List LogPatternGo)
    (b : CorrelationBundleGo) (h : CreateBundle (sortLogs logs) ps = .ok b) :
    StrLe b.WindowStart b.WindowEnd
    ∧ b.WindowStart ∈ logs.map (fun l => l.Timestamp)
    ∧ (∀ t ∈ logs.map (fun l => l.Timestamp), StrLe b.WindowStart t)
    ∧ b.WindowEnd ∈ logs.map (fun l => l.Timestamp)
    ∧ (∀ t ∈ logs.map (fun l => l.Timestamp), StrLe t b.WindowEnd) := by
  cases hl : sortLogs logs with
  | nil =>
    rw [hl] at h
    simp [CreateBundle] at h
  | cons l0 rest =>
    rw [hl] at h
    simp only [CreateBundle, Except.ok.injEq] at h
    subst h
    have hsorted : (l0 :: rest).Pairwise LeTs := hl ▸ sortLogs_pairwise logs
    have hperm : (l0 :: rest).Perm logs := hl ▸ sortLogs_perm logs
    have hlast_mem : (l0 :: rest).getLast (by simp) ∈ l0 :: rest :=
      List.getLast_mem (by simp)
    refine ⟨?_, ?_, ?_, ?_, ?_⟩
    · exact pairwise_head_le hsorted _ hlast_mem
    · exact List.mem_map_of_mem _ (hperm.mem_iff.mp (List.mem_cons_self _ _))
    · intro t ht
      rcases List.mem_map.mp ht with ⟨y, hy, rfl⟩
      exact pairwise_head_le hsorted y (hperm.mem_iff.mpr hy)
    · exact List.mem_map_of_mem _ (hperm.mem_iff.mp hlast_mem)
    · intro t ht
      rcases List.mem_map.mp ht with ⟨y, hy, rfl⟩
      exact pairwise_le_getLast (l0 :: rest) (by simp) hsorted y (hperm.mem_iff.mpr hy)

/-- Claim C5 witness: the window-bound properties at a concrete input. -/
theorem C5_witness :
    StrLe bundle5W.WindowStart bundle5W.WindowEnd
    ∧ bundle5W.WindowStart ∈ logsC5.map (fun l => l.Timestamp)
    ∧ (∀ t ∈ logsC5.map (fun l => l.Timestamp), StrLe bundle5W.WindowStart t)
    ∧ bundle5W.WindowEnd ∈ logsC5.map (fun l => l.Timestamp)
    ∧ (∀ t ∈ logsC5.map (fun l => l.Timestamp), StrLe t bundle5W.WindowEnd) :=
  C5_window_bounds logsC5 [] bundle5W (by rfl)

/-- Claim C8: the three-record scenario.  The asserted properties
(service set as a permutation, the count of the unique "conn timeout"
pattern, root service, metric constants, hint) are all invariant under
Go's unspecified map-iteration order and under timestamp tie-order, so
they are independent of the model's fixed orders. -/
theorem C8_scenario :
    Process "T" raw8 = .ok bundle8
    ∧ bundle8.AffectedServices.Perm ["svc-a", "svc-b"]
    ∧ ((bundle8.LogPatterns.filter (fun p => p.Pattern = "conn timeout")).map
        (fun p => p.Count)) = [2]
    ∧ bundle8.RootService = some "svc-a"
    ∧ bundle8.Metrics.ErrorRateZ = 5
    ∧ bundle8.Metrics.LatencyZ = 3
    ∧ bundle8.DerivedRootCauseHint = "Issue detected in svc-a" := by
  refine ⟨by rfl, by decide, by rfl, by rfl, by rfl, by rfl, by rfl⟩

/-- Claim C4, counterexample: the tailer is opened on a file whose
content is "hello\n" (it seeks to the end, so its byte counter starts at
0 while 6 bytes already exist).  The file then shrinks to "z\n" between
polls.  The claim says tailing resumes from offset zero of the new
content; in fact the shrink is never detected (2 < 0 is false, since the
counter tracks bytes read, not the observed size), nothing is ever
emitted (first conjunct), although reading the new content from offset
zero would have emitted the record for "z" (second conjunct). -/
theorem C4_cex :
    (tailRun "T" "s" ["hello\n".data, "z\n".data] (tailInit "hello\n".data)).2 = []
    ∧ (tailRead "T" "s" "z\n".data ⟨0, 0⟩).2 = some (parseLine "T" "z" "s") := by
  exact ⟨rfl, rfl⟩

/-- Claim C4 (amended): the tailer's tracker counts bytes consumed since
tailing began (starting at zero after the initial seek-to-end), not the
last observed file size.  Whenever the observed size drops below this
tracker, the tailer reopens from the beginning, resets the tracker to
zero and resumes reading at offset zero of the current content (first
conjunct); otherwise it reads at its previous offset (second conjunct).
A shrink that leaves the file no smaller than the bytes consumed so far
is not detected (see the counterexample).  The third conjunct runs the
detection scenario: an initially empty tailed file receives lines "a"
and "b", then shrinks to "x\n"; the shrink is detected (2 < 4) and
tailing resumes from offset zero, emitting "x" without error and without
re-reading old offsets. -/
theorem C4_shrink_recovery (now service : String) :
    (∀ (c : List Char) (st : TailState), c.length < st.lastSize →
        tailStep now service c st = tailRead now service c ⟨0, 0⟩)
    ∧ (∀ (c : List Char) (st : TailState), ¬ c.length < st.lastSize →
        tailStep now service c st = tailRead now service c st)
    ∧ (tailRun now service ["a\n".data, "a\nb\n".data, "x\n".data] (tailInit [])).2
        = [parseLine now "a" service, parseLine now "b" service, parseLine now "x" service] := by
  refine ⟨?_, ?_, ?_⟩
  · intro c st h
    unfold tailStep
    rw [if_pos h]
  · intro c st h
    unfold tailStep
    rw [if_neg h]
  · rfl

/-- Claim C4 witness. -/
theorem C4_witness :
    tailStep "T" "s" "z\n".data ⟨6, 7⟩ = tailRead "T" "s" "z\n".data ⟨0, 0⟩ :=
  (C4_shrink_recovery "T" "s").1 "z\n".data ⟨6, 7⟩ (by decide)

theorem toU16LE_append_single :
    ∀ (bs : List Nat), bs.length % 2 = 0 → ∀ (b : Nat),
      toU16LE (bs ++ [b]) = toU16LE bs
  | [], _, b => rfl
  | [_], h, _ => by simp at h
  | b0 :: b1 :: rest, h, b => by
    have hr : rest.length % 2 = 0 := by
      simp only [List.length_cons] at h
      omega
    show (b0 + b1 * 256) :: toU16LE (rest ++ [b]) = (b0 + b1 * 256) :: toU16LE rest
    rw [toU16LE_append_single rest hr b]

theorem toU16BE_append_single :
    ∀ (bs : List Nat), bs.length % 2 = 0 → ∀ (b : Nat),
      toU16BE (bs ++ [b]) = toU16BE bs
  | [], _, b => rfl
  | [_], h, _ => by simp at h
  | b0 :: b1 :: rest, h, b => by
    have hr : rest.length % 2 = 0 := by
      simp only [List.length_cons] at h
      omega
    show (b0 * 256 + b1) :: toU16BE (rest ++ [b]) = (b0 * 256 + b1) :: toU16BE rest
    rw [toU16BE_append_single rest hr b]

/-- Claim C10: the file reader decodes as UTF-16 exactly when the data
is at least 3 bytes long and starts with a BOM (FF FE little-endian or
FE FF big-endian) — conjuncts 4 and 5; any other content, including a
file that is exactly a 2-byte BOM, is returned verbatim (conjuncts 1-3);
and when the byte count after the BOM is odd, the trailing unpaired byte
is dropped: the decoded output is that of the even-length prefix
(conjunct 6, using that the pairing loop sizes its buffer with the
flooring division `(len(data)-2)/2`). -/
theorem C10_utf16_reader :
    (∀ data : List Nat,
        data.length < 3 ∨ (data.take 2 ≠ [0xFF, 0xFE] ∧ data.take 2 ≠ [0xFE, 0xFF]) →
        readFileAutoUTF data = data)
    ∧ readFileAutoUTF [0xFF, 0xFE] = [0xFF, 0xFE]
    ∧ readFileAutoUTF [0xFE, 0xFF] = [0xFE, 0xFF]
    ∧ (∀ (c : Nat) (rest : List Nat),
        readFileAutoUTF (0xFF :: 0xFE :: c :: rest)
          = utf8Encode (utf16DecodeGo (toU16LE (c :: rest))))
    ∧ (∀ (c : Nat) (rest : List Nat),
        readFileAutoUTF (0xFE :: 0xFF :: c :: rest)
          = utf8Encode (utf16DecodeGo (toU16BE (c :: rest))))
    ∧ (∀ (bs : List Nat), bs.length % 2 = 0 → ∀ (b : Nat),
        readFileAutoUTF (0xFF :: 0xFE :: (bs ++ [b]))
            = utf8Encode (utf16DecodeGo (toU16LE bs))
        ∧ readFileAutoUTF (0xFE :: 0xFF :: (bs ++ [b]))
            = utf8Encode (utf16DecodeGo (toU16BE bs))) := by
  refine ⟨?_, rfl, rfl, fun c rest => rfl, fun c rest => rfl, ?_⟩
  · intro data h
    unfold readFileAutoUTF
    split
    · exfalso
      rcases h with h | ⟨h1, _⟩
      · simp at h
        omega
      · exact h1 rfl
    · exfalso
      rcases h with h | ⟨_, h2⟩
      · simp at h
        omega
      · exact h2 rfl
    · rfl
  · intro bs hbs b
    cases bs with
    | nil => exact ⟨rfl, rfl⟩
    | cons x xs =>
      constructor
      · show utf8Encode (utf16DecodeGo (toU16LE (x :: (xs ++ [b])))) = _
        rw [show x :: (xs ++ [b]) = (x :: xs) ++ [b] from rfl,
          toU16LE_append_single (x :: xs) hbs b]
      · show utf8Encode (utf16DecodeGo (toU16BE (x :: (xs ++ [b])))) = _
        rw [show x :: (xs ++ [b]) = (x :: xs) ++ [b] from rfl,
          toU16BE_append_single (x :: xs) hbs b]

/-- Claim C10 witness. -/
theorem C10_witness :
    readFileAutoUTF [1, 2, 3] = [1, 2, 3]
    ∧ readFileAutoUTF [0xFF, 0xFE, 65, 0, 66] = utf8Encode (utf16DecodeGo (toU16LE [65, 0])) :=
  ⟨C10_utf16_reader.1 [1, 2, 3] (by decide),
   ((C10_utf16_reader.2.2.2.2.2) [65, 0] (by decide) 66).1⟩
